import Mathlib

/-!
Verification development for a small assembler/linker toolchain.

The development shallowly embeds two programs:

* the linker (vmlink.cpp): object-file reader, section layout, global
  symbol table, undefined-reference check, relocation application and
  executable serialization;
* the assembler (vm_asm.cpp, Modules 1-3 variant): macro pre-expansion,
  regex-driven lexer, single-pass parser and object serialization.

Machine integers are modelled as Nat with explicit reduction modulo 2^32
(or 2^16 / 2^8) exactly where the C++ code performs uint32_t / uint16_t /
uint8_t arithmetic or casts.  Byte buffers are List Nat.  Fallible code
returns Except String.
-/

instance instDecEqExcept {ε α : Type} [DecidableEq ε] [DecidableEq α] : DecidableEq (Except ε α) := fun x y =>
  match x, y with
  | .ok a, .ok b =>
    if h : a = b then .isTrue (by rw [h]) else .isFalse (fun hc => by cases hc; exact h rfl)
  | .error a, .error b =>
    if h : a = b then .isTrue (by rw [h]) else .isFalse (fun hc => by cases hc; exact h rfl)
  | .ok _, .error _ => .isFalse (fun hc => by cases hc)
  | .error _, .ok _ => .isFalse (fun hc => by cases hc)

namespace VmBytes

/-- Reduction modulo 2^32, the effect of uint32_t arithmetic. -/
def u32 (n : Nat) : Nat := n % 4294967296

/-- Little-endian serialization of a u16 value (write_u16 in the C++). -/
def le16 (n : Nat) : List Nat := [n % 256, n / 256 % 256]

/-- Little-endian serialization of a u32 value (write_u32 in the C++). -/
def le32 (n : Nat) : List Nat := [n % 256, n / 256 % 256, n / 65536 % 256, n / 16777216 % 256]

/-- Bytes rendered as a Lean string, byte-per-character (C++ std::string). -/
def byteStr (bs : List Nat) : String := String.mk (bs.map (fun b => Char.ofNat (b % 256)))

end VmBytes

namespace VmLink

open VmBytes

/-- Symbol record of an object file (struct SymRec).  The section is kept
as the raw u16 read from the file (0 = UNDEF, 1 = TEXT, 2 = DATA). -/
structure SymRec where
  sec : Nat
  flags : Nat
  value : Nat
  name : List Nat
deriving DecidableEq, Repr

/-- Relocation record of an object file (struct RelRec). -/
structure RelRec where
  sec : Nat
  rtype : Nat
  offset : Nat
  name : List Nat
deriving DecidableEq, Repr

/-- In-memory object file (struct ObjFile); raw is dropped except in the
reader model, text and data are the extracted section byte buffers. -/
structure ObjFile where
  path : String
  text : List Nat
  data : List Nat
  symbols : List SymRec
  relocs : List RelRec
deriving DecidableEq, Repr

def dfltObj : ObjFile := ⟨"", [], [], [], []⟩

/-- inputs[k] in the C++ main; the model keeps the path inside ObjFile. -/
def pathOf (objs : List ObjFile) (k : Nat) : String := (objs.getD k dfltObj).path

/-- obj_text_base[oi]: text blocks concatenated, accumulated in uint32_t. -/
def textBase (objs : List ObjFile) (oi : Nat) : Nat :=
  u32 (((objs.take oi).map (fun o => o.text.length)).sum)

/-- Final value of the text_base accumulator: total text size (uint32_t). -/
def totalText (objs : List ObjFile) : Nat :=
  u32 ((objs.map (fun o => o.text.length)).sum)

/-- obj_data_base[oi]: data blocks follow all text blocks (uint32_t). -/
def dataBase (objs : List ObjFile) (oi : Nat) : Nat :=
  u32 ((objs.map (fun o => o.text.length)).sum + ((objs.take oi).map (fun o => o.data.length)).sum)

/-- Final value of the data_base accumulator after the layout loop: the
end of the data region, total text plus total data (uint32_t). -/
def dataEnd (objs : List ObjFile) : Nat :=
  u32 ((objs.map (fun o => o.text.length)).sum + ((objs.map (fun o => o.data.length)).sum))

/-- Global symbol table entry (struct GlobalSym). -/
structure GlobalSym where
  sec : Nat
  addr : Nat
  flags : Nat
  defObj : Nat
deriving DecidableEq, Repr

/-- The global symbol table; the C++ unordered_map is modelled as an
association list in insertion order. -/
abbrev GTab := List (List Nat × GlobalSym)

def gLookup (g : GTab) (n : List Nat) : Option GlobalSym :=
  match g.find? (fun p => p.1 == n) with
  | some p => some p.2
  | none => none

/-- Error text of the duplicate-definition failure in the first pass. -/
def dupMsg (n : List Nat) (p q : String) : String :=
  "Duplicate symbol: " ++ byteStr n ++ " defined in " ++ p ++ " and " ++ q

/-- Absolute address of a defined symbol of object oi: its section base
plus its value, in uint32_t. -/
def absAddrOf (objs : List ObjFile) (oi : Nat) (s : SymRec) : Nat :=
  if s.sec == 1 then u32 (textBase objs oi + s.value) else u32 (dataBase objs oi + s.value)

/-- First-pass insertion of one symbol record of object oi (the body of
the nested loops registering defined symbols). -/
def insertSym (objs : List ObjFile) (oi : Nat) (g : GTab) (s : SymRec) : Except String GTab :=
  if s.sec == 0 then .ok g
  else
    match g.find? (fun p => p.1 == s.name) with
    | some p => .error (dupMsg s.name (pathOf objs p.2.defObj) (pathOf objs oi))
    | none => .ok (g ++ [(s.name, ⟨s.sec, absAddrOf objs oi s, s.flags, oi⟩)])

def insertSyms (objs : List ObjFile) (oi : Nat) (g : GTab) : List SymRec → Except String GTab
  | [] => .ok g
  | s :: rest =>
    match insertSym objs oi g s with
    | .error e => .error e
    | .ok g1 => insertSyms objs oi g1 rest

def buildGsymGo (objs : List ObjFile) (g : GTab) : List (Nat × ObjFile) → Except String GTab
  | [] => .ok g
  | (oi, o) :: rest =>
    match insertSyms objs oi g o.symbols with
    | .error e => .error e
    | .ok g1 => buildGsymGo objs g1 rest

/-- First pass of the linker: register all defined symbols, failing on a
duplicate name. -/
def buildGsym (objs : List ObjFile) : Except String GTab :=
  buildGsymGo objs [] objs.enum

/-- Names referenced by one object: its relocation targets followed by
its UNDEF symbol-table entries. -/
def refNames (o : ObjFile) : List (List Nat) :=
  o.relocs.map (fun r => r.name) ++ (o.symbols.filter (fun s => s.sec == 0)).map (fun s => s.name)

def insertRef (acc : List (List Nat)) (n : List Nat) : List (List Nat) :=
  if n ∈ acc then acc else acc ++ [n]

/-- The referenced-name set (C++ unordered_set), modelled as a list that
keeps first-insertion order. -/
def referenced (objs : List ObjFile) : List (List Nat) :=
  objs.foldl (fun acc o => (refNames o).foldl insertRef acc) []

/-- Unresolved referenced names, in referenced order. -/
def undefListOf (objs : List ObjFile) (g : GTab) : List (List Nat) :=
  (referenced objs).filter (fun n => (gLookup g n).isNone)

/-- Error text of the undefined-reference failure. -/
def undefMsg (l : List (List Nat)) : String :=
  "Undefined symbols:" ++ String.join (l.map (fun n => " " ++ byteStr n))

/-- Writing the 4 bytes of a little-endian u32 into a buffer; indices are
computed in uint32_t like the C++ subscripts. -/
def set4 (buf : List Nat) (at0 : Nat) (v : Nat) : List Nat :=
  ((((buf.set at0 (v % 256)).set (u32 (at0 + 1)) (v / 256 % 256)).set
    (u32 (at0 + 2)) (v / 65536 % 256)).set (u32 (at0 + 3)) (v / 16777216 % 256))

def oorMsg (p : String) (n : List Nat) : String :=
  "Relocation write out of range in object " ++ p ++ " for symbol " ++ byteStr n

def unsupMsg (t : Nat) (p : String) : String :=
  "Unsupported reloc type " ++ Nat.repr t ++ " in object " ++ p

/-- Application of one relocation of object oi to the pair of merged
buffers (final_text, final_data). -/
def applyReloc (objs : List ObjFile) (g : GTab) (oi : Nat) (bufs : List Nat × List Nat)
    (r : RelRec) : Except String (List Nat × List Nat) :=
  match gLookup g r.name with
  | none => .error ("Relocation refers to undefined symbol: " ++ byteStr r.name)
  | some gs =>
    if r.sec == 1 then
      let writeAt := u32 (textBase objs oi + r.offset)
      if u32 (writeAt + 4) > bufs.1.length then .error (oorMsg (pathOf objs oi) r.name)
      else if r.rtype == 0 then .ok (set4 bufs.1 writeAt gs.addr, bufs.2)
      else .error (unsupMsg r.rtype (pathOf objs oi))
    else if r.sec == 2 then
      let writeAt := u32 (dataBase objs oi + r.offset)
      if u32 (writeAt + 4) > bufs.2.length then .error (oorMsg (pathOf objs oi) r.name)
      else if r.rtype == 0 then .ok (bufs.1, set4 bufs.2 writeAt gs.addr)
      else .error (unsupMsg r.rtype (pathOf objs oi))
    else .error "Unknown relocation section"

def applyRelocsOf (objs : List ObjFile) (g : GTab) (oi : Nat) (bufs : List Nat × List Nat) :
    List RelRec → Except String (List Nat × List Nat)
  | [] => .ok bufs
  | r :: rest =>
    match applyReloc objs g oi bufs r with
    | .error e => .error e
    | .ok bufs1 => applyRelocsOf objs g oi bufs1 rest

def applyAllGo (objs : List ObjFile) (g : GTab) (bufs : List Nat × List Nat) :
    List (Nat × ObjFile) → Except String (List Nat × List Nat)
  | [] => .ok bufs
  | (oi, o) :: rest =>
    match applyRelocsOf objs g oi bufs o.relocs with
    | .error e => .error e
    | .ok bufs1 => applyAllGo objs g bufs1 rest

/-- Merging sections and applying every relocation of every object. -/
def applyAll (objs : List ObjFile) (g : GTab) : Except String (List Nat × List Nat) :=
  applyAllGo objs g (objs.flatMap (fun o => o.text), objs.flatMap (fun o => o.data)) objs.enum

/-- Section tag stored in the executable's symbol table: the C++ writes
DATA iff the absolute address is at least the final (mutated) data_base
accumulator, which by then holds the end of the data region. -/
def exeSecOf (dEnd addr : Nat) : Nat := if dEnd ≤ addr then 2 else 1

/-- Defined global-table entries, as (name, absolute address) pairs. -/
def exeEntries (g : GTab) : List (List Nat × Nat) :=
  (g.filter (fun p => p.2.sec != 0)).map (fun p => (p.1, p.2.addr))

/-- One executable symbol record: section, flags = 1, value, name. -/
def symRecBytes (dEnd : Nat) (e : List Nat × Nat) : List Nat :=
  le16 (exeSecOf dEnd e.2) ++ le16 1 ++ le32 e.2 ++ le16 e.1.length ++ e.1

def symBlobOf (g : GTab) (dEnd : Nat) : List Nat :=
  (exeEntries g).flatMap (symRecBytes dEnd)

def mainName : List Nat := [109, 97, 105, 110]

/-- Entry point: absolute address of the symbol main when defined, 0
otherwise. -/
def entryOf (g : GTab) : Nat :=
  match gLookup g mainName with
  | some gs => gs.addr
  | none => 0

/-- The 40-byte executable header (magic VMCE, version 2, offsets chained
from the actual sizes, rel_count = 0), all fields in uint32_t. -/
def exeHeader (textLen dataLen blobLen symCount : Nat) : List Nat :=
  let textOff := 40
  let textSize := u32 textLen
  let dataOff := u32 (textOff + textSize)
  let dataSize := u32 dataLen
  let symOff := u32 (dataOff + dataSize)
  let relOff := u32 (symOff + u32 blobLen)
  le32 0x564D4345 ++ le16 2 ++ le16 0 ++ le32 textOff ++ le32 textSize ++
    le32 dataOff ++ le32 dataSize ++ le32 symOff ++ le32 (u32 symCount) ++
    le32 relOff ++ le32 0

/-- Full executable image: header, merged text, merged data, symbol blob,
then the 8-byte footer ENTR plus the entry point as little-endian u32. -/
def exeBytes (ft fd blob : List Nat) (symCount entry : Nat) : List Nat :=
  exeHeader ft.length fd.length blob.length symCount ++ ft ++ fd ++ blob ++
    ([69, 78, 84, 82] ++ le32 entry)

/-- The link steps after the two symbol passes succeeded. -/
def linkRest (objs : List ObjFile) (g : GTab) : Except String (List Nat) :=
  match applyAll objs g with
  | .error e => .error e
  | .ok bufs =>
    .ok (exeBytes bufs.1 bufs.2 (symBlobOf g (dataEnd objs)) (exeEntries g).length (entryOf g))

/-- The linker core (main of vmlink.cpp after all inputs parsed): build
the global table, check references, merge, relocate, serialize. -/
def linkCore (objs : List ObjFile) : Except String (List Nat) :=
  match buildGsym objs with
  | .error e => .error e
  | .ok g =>
    if undefListOf objs g = [] then linkRest objs g
    else .error (undefMsg (undefListOf objs g))

/-- Read of a little-endian u16 out of a byte buffer (read_u16); calls in
the reader are guarded by explicit range checks exactly as in the C++. -/
def ru16 (b : List Nat) (off : Nat) : Nat :=
  b.getD off 0 % 256 + 256 * (b.getD (off + 1) 0 % 256)

/-- Read of a little-endian u32 out of a byte buffer (read_u32). -/
def ru32 (b : List Nat) (off : Nat) : Nat :=
  ru16 b off + 65536 * ru16 b (off + 2)

/-- Result of the object-file reader (parse_vmo), raw bytes included. -/
structure PObj where
  path : String
  raw : List Nat
  text : List Nat
  data : List Nat
  symbols : List SymRec
  relocs : List RelRec
deriving DecidableEq, Repr

/-- Symbol-table reading loop of parse_vmo; the cursor p advances past
each fixed 10-byte prefix and the name bytes, with truncation checks. -/
def parseSymsGo (raw : List Nat) (path : String) : Nat → Nat → List SymRec → Except String (List SymRec)
  | 0, _, acc => .ok acc
  | n + 1, p, acc =>
    if p + 10 > raw.length then .error ("symbol table truncated: " ++ path)
    else
      let namelen := ru16 raw (p + 8)
      if p + 10 + namelen > raw.length then .error ("symbol name truncated: " ++ path)
      else
        parseSymsGo raw path n (p + 10 + namelen)
          (acc ++ [⟨ru16 raw p, ru16 raw (p + 2), ru32 raw (p + 4), (raw.drop (p + 10)).take namelen⟩])

/-- Relocation-table reading loop of parse_vmo. -/
def parseRelsGo (raw : List Nat) (path : String) : Nat → Nat → List RelRec → Except String (List RelRec)
  | 0, _, acc => .ok acc
  | n + 1, p, acc =>
    if p + 10 > raw.length then .error ("reloc table truncated: " ++ path)
    else
      let namelen := ru16 raw (p + 8)
      if p + 10 + namelen > raw.length then .error ("reloc name truncated: " ++ path)
      else
        parseRelsGo raw path n (p + 10 + namelen)
          (acc ++ [⟨ru16 raw p, ru16 raw (p + 2), ru32 raw (p + 4), (raw.drop (p + 10)).take namelen⟩])

/-- The object-file reader (parse_vmo of vmlink.cpp) on the bytes of one
input file.  The two section range checks add uint32_t values before
comparing against the buffer length, so the sums wrap modulo 2^32 exactly
as in the C++; the section slices are modelled with drop/take (the C++
iterator arithmetic is undefined when an offset exceeds the buffer, where
this model yields a short or empty slice). -/
def parse_vmo (path : String) (buf : List Nat) : Except String PObj :=
  if buf.length < 40 then .error ("File too small: " ++ path)
  else if ru32 buf 0 != 0x564D4F46 then .error ("Bad magic: " ++ path)
  else
    let text_off := ru32 buf 8
    let text_size := ru32 buf 12
    let data_off := ru32 buf 16
    let data_size := ru32 buf 20
    let sym_off := ru32 buf 24
    let sym_count := ru32 buf 28
    let rel_off := ru32 buf 32
    let rel_count := ru32 buf 36
    if u32 (text_off + text_size) > buf.length then .error ("text section out of range: " ++ path)
    else if u32 (data_off + data_size) > buf.length then .error ("data section out of range: " ++ path)
    else
      match parseSymsGo buf path sym_count sym_off [] with
      | .error e => .error e
      | .ok syms =>
        match parseRelsGo buf path rel_count rel_off [] with
        | .error e => .error e
        | .ok rels =>
          .ok ⟨path, buf, (buf.drop text_off).take text_size, (buf.drop data_off).take data_size, syms, rels⟩

/-- Names a symbol table defines (section field nonzero). -/
def definedNamesL (syms : List SymRec) : List (List Nat) :=
  (syms.filter (fun s => s.sec != 0)).map (fun s => s.name)

/-- Names defined by one object file. -/
def definedNames (o : ObjFile) : List (List Nat) := definedNamesL o.symbols

/-- Shape of the duplicate-definition error: it reports a name together
with the paths of two objects of the input list that both define it. -/
def dupForm (objs : List ObjFile) (e : String) : Prop :=
  ∃ m a b, a ∈ objs ∧ b ∈ objs ∧ m ∈ definedNames a ∧ m ∈ definedNames b ∧
    e = dupMsg m a.path b.path

/-- Invariant of the global table during the first pass: every entry was
defined by some input object whose path the defObj index points back to. -/
def GInv (objs : List ObjFile) (g : GTab) : Prop :=
  ∀ p ∈ g, ∃ o ∈ objs, p.1 ∈ definedNames o ∧ pathOf objs p.2.defObj = o.path

end VmLink

namespace VmAsm

open VmBytes

/-! Lexer (lexAll of vm_asm.cpp).  Each TOKEN_RULES regex is realized as
a matcher returning the text the anchored rule matches, if any; the
rules are tried in the source order and the first match wins, exactly as
regex_search with match_continuous in the C++ loop. -/

inductive TKind where
  | WS
  | COMMENT
  | DIRECTIVE
  | LABEL
  | REGISTER
  | HEX
  | BIN
  | INT
  | IDENT
  | COMMA
  | LBRACK
  | RBRACK
  | PLUS
  | NEWLINE
  | STRING
  | EOF_TOK
deriving DecidableEq, Repr

structure Token where
  kind : TKind
  value : List Char
  line : Nat
  col : Nat
deriving DecidableEq, Repr

def kindName : TKind → String
  | .WS => "WS"
  | .COMMENT => "COMMENT"
  | .DIRECTIVE => "DIRECTIVE"
  | .LABEL => "LABEL"
  | .REGISTER => "REGISTER"
  | .HEX => "HEX"
  | .BIN => "BIN"
  | .INT => "INT"
  | .IDENT => "IDENT"
  | .COMMA => "COMMA"
  | .LBRACK => "LBRACK"
  | .RBRACK => "RBRACK"
  | .PLUS => "PLUS"
  | .NEWLINE => "NEWLINE"
  | .STRING => "STRING"
  | .EOF_TOK => "EOF"

def isIdentStart (c : Char) : Bool := c.isAlpha || c == '_'

def isWordChar (c : Char) : Bool := isIdentStart c || c.isDigit

def isHexDigitC (c : Char) : Bool :=
  c.isDigit || (decide ('a' ≤ c) && decide (c ≤ 'f')) || (decide ('A' ≤ c) && decide (c ≤ 'F'))

def matchWS (cs : List Char) : Option (List Char) :=
  let t := cs.takeWhile (fun c => c == ' ' || c == '\t')
  if t.isEmpty then none else some t

/-- Comment rule: a semicolon up to (excluding) the end of line; the dot
of the ECMAScript regex stops at both newline and carriage return. -/
def matchComment : List Char → Option (List Char)
  | ';' :: rest => some (';' :: rest.takeWhile (fun c => !(c == '\n' || c == '\r')))
  | _ => none

def identRun : List Char → Option (List Char)
  | c :: rest => if isIdentStart c then some (c :: rest.takeWhile isWordChar) else none
  | [] => none

def matchDirective : List Char → Option (List Char)
  | '.' :: rest => (identRun rest).map (fun r => '.' :: r)
  | _ => none

def matchLabel (cs : List Char) : Option (List Char) :=
  match identRun cs with
  | some r =>
    match cs.drop r.length with
    | ':' :: _ => some (r ++ [':'])
    | _ => none
  | none => none

/-- Word boundary of the register rule: the next character, if any, is
not a word character. -/
def boundaryAt : List Char → Bool
  | [] => true
  | c :: _ => !isWordChar c

/-- Register rule (r|x)([0-9]|[12][0-9]|3[01])\b with the alternatives
tried in regex order under the trailing word boundary. -/
def matchRegister : List Char → Option (List Char)
  | c :: d1 :: rest1 =>
    if !(c == 'r' || c == 'x') then none
    else if d1.isDigit && boundaryAt rest1 then some [c, d1]
    else
      match rest1 with
      | d2 :: rest2 =>
        if (((d1 == '1' || d1 == '2') && d2.isDigit) ||
            (d1 == '3' && (d2 == '0' || d2 == '1'))) && boundaryAt rest2
        then some [c, d1, d2]
        else none
      | [] => none
  | _ => none

def matchHex : List Char → Option (List Char)
  | '0' :: 'x' :: rest =>
    let ds := rest.takeWhile isHexDigitC
    if ds.isEmpty then none else some ('0' :: 'x' :: ds)
  | _ => none

def matchBin : List Char → Option (List Char)
  | '0' :: 'b' :: rest =>
    let ds := rest.takeWhile (fun c => c == '0' || c == '1')
    if ds.isEmpty then none else some ('0' :: 'b' :: ds)
  | _ => none

def matchInt (cs : List Char) : Option (List Char) :=
  match cs with
  | '-' :: rest =>
    let ds := rest.takeWhile (fun c => c.isDigit)
    if ds.isEmpty then none else some ('-' :: ds)
  | _ =>
    let ds := cs.takeWhile (fun c => c.isDigit)
    if ds.isEmpty then none else some ds

def matchChar (ch : Char) : List Char → Option (List Char)
  | c :: _ => if c == ch then some [c] else none
  | _ => none

/-- Tail of the string rule after the opening quote: ([^"\\]|\\.)*" with
the escape unable to consume a line terminator. -/
def strTail : List Char → Option (List Char)
  | [] => none
  | '"' :: _ => some ['"']
  | '\\' :: c :: rest =>
    if c == '\n' || c == '\r' then none
    else (strTail rest).map (fun t => '\\' :: c :: t)
  | '\\' :: [] => none
  | c :: rest => (strTail rest).map (fun t => c :: t)

def matchString : List Char → Option (List Char)
  | '"' :: rest => (strTail rest).map (fun t => '"' :: t)
  | _ => none

def matchNewline (cs : List Char) : Option (List Char) :=
  let t := cs.takeWhile (fun c => c == '\n')
  if t.isEmpty then none else some t

def matchIdent : List Char → Option (List Char) := identRun

/-- First rule of TOKEN_RULES matching at the cursor, in source order. -/
def firstTok (cs : List Char) : Option (TKind × List Char) :=
  (matchWS cs).map (fun t => (TKind.WS, t)) <|>
  (matchComment cs).map (fun t => (TKind.COMMENT, t)) <|>
  (matchDirective cs).map (fun t => (TKind.DIRECTIVE, t)) <|>
  (matchLabel cs).map (fun t => (TKind.LABEL, t)) <|>
  (matchRegister cs).map (fun t => (TKind.REGISTER, t)) <|>
  (matchHex cs).map (fun t => (TKind.HEX, t)) <|>
  (matchBin cs).map (fun t => (TKind.BIN, t)) <|>
  (matchInt cs).map (fun t => (TKind.INT, t)) <|>
  (matchIdent cs).map (fun t => (TKind.IDENT, t)) <|>
  (matchChar ',' cs).map (fun t => (TKind.COMMA, t)) <|>
  (matchChar '[' cs).map (fun t => (TKind.LBRACK, t)) <|>
  (matchChar ']' cs).map (fun t => (TKind.RBRACK, t)) <|>
  (matchChar '+' cs).map (fun t => (TKind.PLUS, t)) <|>
  (matchString cs).map (fun t => (TKind.STRING, t)) <|>
  (matchNewline cs).map (fun t => (TKind.NEWLINE, t))

/-- The lexer loop; every successful rule consumes at least one
character, so the fuel passed by lexAll can never run out before the end
of the input is reached. -/
def lexLoop (toksrc : List Char) : Nat → List Char → Nat → Nat → List Token → Except String (List Token)
  | 0, _, _, _, _ => .error "lexer fuel exhausted"
  | fuel + 1, cs, line, col, acc =>
    match cs with
    | [] => .ok (acc ++ [⟨.EOF_TOK, [], line, col⟩])
    | _ =>
      match firstTok cs with
      | none => .error ("Unknown token at " ++ Nat.repr line ++ ":" ++ Nat.repr col)
      | some (k, t) =>
        let rest := cs.drop t.length
        if k == .NEWLINE then
          lexLoop toksrc fuel rest (line + t.length) 1 (acc ++ [⟨.NEWLINE, ['\n'], line, col⟩])
        else if k == .WS || k == .COMMENT then
          lexLoop toksrc fuel rest line (col + t.length) acc
        else
          lexLoop toksrc fuel rest line (col + t.length) (acc ++ [⟨k, t, line, col⟩])

def lexAll (cs : List Char) : Except String (List Token) :=
  lexLoop cs (cs.length + 1) cs 1 1 []

/-! Macro pre-expansion (macroExpand of vm_asm.cpp). -/

/-- One collected .macro definition. -/
structure MDef where
  name : List Char
  arity : Int
  body : List (List Char)
deriving DecidableEq, Repr

def isTrimChar (c : Char) : Bool := c == ' ' || c == '\t' || c == '\r' || c == '\n'

def trim (cs : List Char) : List Char :=
  ((cs.dropWhile isTrimChar).reverse.dropWhile isTrimChar).reverse

/-- The lines std::getline yields: split at newlines, no synthetic empty
line after a trailing newline. -/
def getLines : List Char → List (List Char)
  | [] => []
  | c :: cs =>
    if c == '\n' then [] :: getLines cs
    else
      match getLines cs with
      | [] => [[c]]
      | l :: ls => (c :: l) :: ls

/-- Whitespace-delimited words, as istringstream extraction sees them. -/
def splitWSGo : List Char → List Char → List (List Char)
  | [], cur => if cur.isEmpty then [] else [cur.reverse]
  | c :: rest, cur =>
    if isTrimChar c then
      if cur.isEmpty then splitWSGo rest [] else cur.reverse :: splitWSGo rest []
    else splitWSGo rest (c :: cur)

def splitWS (cs : List Char) : List (List Char) := splitWSGo cs []

def digitsVal (ds : List Char) : Nat := ds.foldl (fun a c => a * 10 + (c.toNat - 48)) 0

/-- The integer prefix the stream extraction operator reads for the
arity,
0 when nothing parses (the C++ stream leaves the zero-initialized
variable and sets failbit); arities within int range are assumed. -/
def parseIntPrefix (cs : List Char) : Int :=
  match cs with
  | '-' :: rest =>
    let ds := rest.takeWhile (fun c => c.isDigit)
    if ds.isEmpty then 0 else -(digitsVal ds : Int)
  | '+' :: rest =>
    let ds := rest.takeWhile (fun c => c.isDigit)
    if ds.isEmpty then 0 else (digitsVal ds : Int)
  | _ =>
    let ds := cs.takeWhile (fun c => c.isDigit)
    if ds.isEmpty then 0 else (digitsVal ds : Int)

/-- splitCSV: split on commas not nested inside square brackets, each
piece trimmed; a trailing piece that trims to nothing is dropped. -/
def splitCSVGo : List Char → List Char → Int → List (List Char) → List (List Char)
  | [], cur, _, acc => if (trim cur).isEmpty then acc else acc ++ [trim cur]
  | c :: rest, cur, paren, acc =>
    if c == ',' && paren == 0 then splitCSVGo rest [] paren (acc ++ [trim cur])
    else
      splitCSVGo rest (cur ++ [c])
        (paren + (if c == '[' then 1 else 0) - (if c == ']' then 1 else 0)) acc

def splitCSV (cs : List Char) : List (List Char) := splitCSVGo cs [] 0 []

/-- Replacement of every occurrence of the key dollar-kt by arg with the
cursor advancing past the substituted text, as the find/replace loop
does (substituted text is not re-scanned for the same key). -/
def substKey (kt : List Char) (arg : List Char) : List Char → List Char
  | [] => []
  | c :: cs =>
    if c == '$' && kt.isPrefixOf cs then arg ++ substKey kt arg (cs.drop kt.length)
    else c :: substKey kt arg cs
termination_by cs => cs.length
decreasing_by
  all_goals simp [List.length_drop]
  all_goals omega

/-- Positional substitution of body line: dollar-1 .. dollar-N replaced
in order by the argument texts. -/
def substLine (args : List (List Char)) (arity : Nat) (line : List Char) : List Char :=
  (List.range arity).foldl
    (fun acc i => substKey (Nat.repr (i + 1)).toList (args.getD i []) acc) line

/-- State of the line-by-line expansion loop. -/
structure MState where
  mdefs : List MDef
  inM : Option MDef
  out : List (List Char)
deriving Repr

/-- Processing of one source line of macroExpand. -/
def mexpandLine (st : MState) (line : List Char) : Except String MState :=
  let s := trim line
  match st.inM with
  | some cur =>
    if ".endm".toList.isPrefixOf s then .ok {st with mdefs := st.mdefs ++ [cur], inM := none}
    else .ok {st with inM := some {cur with body := cur.body ++ [line]}}
  | none =>
    if ".macro".toList.isPrefixOf s then
      match splitWS (s.drop 6) with
      | [] => .error ".macro missing name"
      | name :: rest =>
        let arity : Int :=
          match rest with
          | [] => 0
          | w :: _ => parseIntPrefix w
        .ok {st with inM := some ⟨name, arity, []⟩}
    else
      match st.mdefs.find? (fun m =>
          s == m.name || (m.name ++ [' ']).isPrefixOf s || (m.name ++ ['\t']).isPrefixOf s) with
      | some m =>
        let argsPart := if s.length > m.name.length then trim (s.drop m.name.length) else []
        let args := if argsPart.isEmpty then [] else splitCSV argsPart
        if (args.length : Int) != m.arity then
          .error ("Macro " ++ String.mk m.name ++ " expects " ++ toString m.arity ++ " args")
        else
          .ok {st with out := st.out ++ m.body.map (substLine args m.arity.toNat)}
      | none => .ok {st with out := st.out ++ [line]}

def mexpandGo (st : MState) : List (List Char) → Except String MState
  | [] => .ok st
  | l :: rest =>
    match mexpandLine st l with
    | .error e => .error e
    | .ok st1 => mexpandGo st1 rest

/-- The macro pre-pass: collect definitions, expand invocations, rebuild
the text joined by single newlines (no trailing newline). -/
def mexpand (src : List Char) : Except String (List Char) :=
  match mexpandGo ⟨[], none, []⟩ (getLines src) with
  | .error e => .error e
  | .ok st =>
    if st.inM.isSome then .error "Unterminated .macro"
    else .ok (List.intercalate ['\n'] st.out)

/-! Parser (class Parser of vm_asm.cpp). -/

/-- Instruction record; opcode and register slots are the u8 values. -/
structure Instr where
  op : Nat
  rd : Nat
  rs1 : Nat
  rs2 : Nat
  imm : Int
  label_ref : Option (List Char)
  src_line : Nat
deriving DecidableEq, Repr

/-- Assembler symbol record (struct Sym). -/
structure Sym where
  name : List Char
  sec : Nat
  value : Nat
  global : Bool
deriving DecidableEq, Repr

/-- Assembler relocation record (struct Reloc). -/
structure Reloc where
  sec : Nat
  offset : Nat
  rtype : Nat
  name : List Char
deriving DecidableEq, Repr

/-- The MNEMONIC table, keyed on the lowercased identifier. -/
def mnemOf (s : List Char) : Option Nat :=
  if s == "ldi".toList then some 1
  else if s == "mov".toList then some 2
  else if s == "add".toList then some 3
  else if s == "sub".toList then some 4
  else if s == "and".toList then some 5
  else if s == "or".toList then some 6
  else if s == "xor".toList then some 7
  else if s == "lw".toList then some 8
  else if s == "sw".toList then some 9
  else if s == "jmp".toList then some 10
  else if s == "beq".toList then some 11
  else if s == "bne".toList then some 12
  else if s == "call".toList then some 13
  else if s == "ret".toList then some 14
  else if s == "halt".toList then some 15
  else none

/-- toks[i]; the parser never walks past the trailing EOF token that
lexAll appends, so the default is never observed on pipeline input. -/
def tokAt (toks : List Token) (i : Nat) : Token := toks.getD i ⟨.EOF_TOK, [], 0, 0⟩

def eatT (toks : List Token) (i : Nat) (k : TKind) : Except String (Token × Nat) :=
  let t := tokAt toks i
  if t.kind == k then .ok (t, i + 1)
  else
    .error ("Expected " ++ kindName k ++ ", got " ++ kindName t.kind ++ " at " ++
      Nat.repr t.line ++ ":" ++ Nat.repr t.col)

def maybeT (toks : List Token) (i : Nat) (k : TKind) : Nat :=
  if (tokAt toks i).kind == k then i + 1 else i

def parseReg (toks : List Token) (i : Nat) : Except String (Nat × Nat) :=
  match eatT toks i .REGISTER with
  | .error e => .error e
  | .ok (t, i1) =>
    let n := digitsVal (t.value.drop 1)
    if n > 31 then .error "register out of range (0-31)" else .ok (n, i1)

def hexDigitVal (c : Char) : Nat :=
  if c.isDigit then c.toNat - 48
  else if decide ('a' ≤ c) && decide (c ≤ 'f') then c.toNat - 87
  else c.toNat - 55

def hexVal (ds : List Char) : Nat := ds.foldl (fun a c => a * 16 + hexDigitVal c) 0

def binVal (ds : List Char) : Nat := ds.foldl (fun a c => a * 2 + (c.toNat - 48)) 0

/-- Wrap of a long value into int32_t, the cast the parser applies to
every stol result. -/
def toInt32 (n : Int) : Int := ((n + 2147483648) % 4294967296) - 2147483648

/-- std::stol range check: out_of_range aborts the assembly. -/
def stolCheck (n : Int) : Except String Int :=
  if n > 9223372036854775807 || n < -9223372036854775808 then .error "stol: out of range"
  else .ok n

def parseIntTok (toks : List Token) (i : Nat) : Except String (Int × Nat) :=
  let t := tokAt toks i
  if t.kind == .HEX then
    match stolCheck (hexVal (t.value.drop 2) : Int) with
    | .error e => .error e
    | .ok v => .ok (toInt32 v, i + 1)
  else if t.kind == .BIN then
    match stolCheck (binVal (t.value.drop 2) : Int) with
    | .error e => .error e
    | .ok v => .ok (toInt32 v, i + 1)
  else if t.kind == .INT then
    let raw : Int :=
      match t.value with
      | '-' :: ds => -(digitsVal ds : Int)
      | ds => (digitsVal ds : Int)
    match stolCheck raw with
    | .error e => .error e
    | .ok v => .ok (toInt32 v, i + 1)
  else .error ("Expected int at " ++ Nat.repr t.line ++ ":" ++ Nat.repr t.col)

def parseLabelRef (toks : List Token) (i : Nat) :
    Except String ((Int × Option (List Char)) × Nat) :=
  let t := tokAt toks i
  if t.kind == .IDENT then .ok ((0, some t.value), i + 1)
  else
    match parseIntTok toks i with
    | .error e => .error e
    | .ok (v, i1) => .ok ((v, none), i1)

def expectComma (toks : List Token) (i : Nat) : Except String Nat :=
  if (tokAt toks i).kind == .COMMA then .ok (i + 1) else .error "Expected ', '"

/-- Operand fields of one instruction; unset slots stay 0 as in the
C++ locals. -/
structure Operands where
  rd : Nat
  rs1 : Nat
  rs2 : Nat
  imm : Int
  lbl : Option (List Char)
deriving DecidableEq, Repr

/-- The operand-syntax switch of parseInstr, by opcode. -/
def parseOperands (toks : List Token) (i : Nat) (op : Nat) : Except String (Operands × Nat) := do
  if op == 1 then
    let (rd, i1) ← parseReg toks i
    let i2 ← expectComma toks i1
    let (v, i3) ← parseIntTok toks i2
    pure (⟨rd, 0, 0, v, none⟩, i3)
  else if op == 2 then
    let (rd, i1) ← parseReg toks i
    let i2 ← expectComma toks i1
    let (rs1, i3) ← parseReg toks i2
    pure (⟨rd, rs1, 0, 0, none⟩, i3)
  else if op == 3 || op == 4 || op == 5 || op == 6 || op == 7 then
    let (rd, i1) ← parseReg toks i
    let i2 ← expectComma toks i1
    let (rs1, i3) ← parseReg toks i2
    let i4 ← expectComma toks i3
    let (rs2, i5) ← parseReg toks i4
    pure (⟨rd, rs1, rs2, 0, none⟩, i5)
  else if op == 8 then
    let (rd, i1) ← parseReg toks i
    let i2 ← expectComma toks i1
    let (_, i3) ← eatT toks i2 .LBRACK
    let (rs1, i4) ← parseReg toks i3
    let (_, i5) ← eatT toks i4 .RBRACK
    pure (⟨rd, rs1, 0, 0, none⟩, i5)
  else if op == 9 then
    let (rs2, i1) ← parseReg toks i
    let i2 ← expectComma toks i1
    let (_, i3) ← eatT toks i2 .LBRACK
    let (rs1, i4) ← parseReg toks i3
    let (_, i5) ← eatT toks i4 .RBRACK
    pure (⟨0, rs1, rs2, 0, none⟩, i5)
  else if op == 10 || op == 13 then
    let ((v, lbl), i1) ← parseLabelRef toks i
    pure (⟨0, 0, 0, v, lbl⟩, i1)
  else if op == 11 || op == 12 then
    let (rs1, i1) ← parseReg toks i
    let i2 ← expectComma toks i1
    let (rs2, i3) ← parseReg toks i2
    let i4 ← expectComma toks i3
    let ((v, lbl), i5) ← parseLabelRef toks i4
    pure (⟨0, rs1, rs2, v, lbl⟩, i5)
  else
    pure (⟨0, 0, 0, 0, none⟩, i)

/-- Parser state: cursor, current section (1 = Text, 2 = Data) and the
accumulated instruction, data, symbol, relocation and pending-global
lists.  symIndex is represented by name membership in symbols, and the
pending-globals unordered_set by a duplicate-free list in insertion
order. -/
structure PSt where
  i : Nat
  current : Nat
  instrs : List Instr
  data : List Nat
  symbols : List Sym
  relocs : List Reloc
  pending : List (List Char)
deriving Repr

/-- Appending a parsed instruction and, when it referenced a symbol, the
Text relocation at byte offset 8 * index + 4. -/
def finishInstr (st : PSt) (iNew op : Nat) (ops : Operands) (line : Nat) : PSt :=
  let idx := st.instrs.length
  let st1 : PSt :=
    {st with
      i := iNew,
      instrs := st.instrs ++ [⟨op, ops.rd, ops.rs1, ops.rs2, ops.imm, ops.lbl, line⟩]}
  match ops.lbl with
  | some n => {st1 with relocs := st1.relocs ++ [⟨1, 8 * idx + 4, 0, n⟩]}
  | none => st1

def parseInstrM (toks : List Token) (st : PSt) : Except String PSt :=
  match eatT toks st.i .IDENT with
  | .error e => .error e
  | .ok (t, i1) =>
    let mnem := t.value.map Char.toLower
    match mnemOf mnem with
    | none => .error ("Unknown mnemonic: " ++ String.mk mnem)
    | some op =>
      let line := (tokAt toks (i1 - 1)).line
      match parseOperands toks i1 op with
      | .error e => .error e
      | .ok (ops, i2) => .ok (finishInstr st i2 op ops line)

def defineSymbolM (st : PSt) (name : List Char) (sec : Nat) (value : Nat) :
    Except String PSt :=
  if st.symbols.any (fun s => s.name == name) then
    .error ("Duplicate symbol: " ++ String.mk name)
  else
    .ok {st with
      symbols := st.symbols ++ [⟨name, sec, value, st.pending.contains name⟩],
      pending := st.pending.erase name}

def markGlobal (symbols : List Sym) (pending : List (List Char)) (name : List Char) :
    List Sym × List (List Char) :=
  if symbols.any (fun s => s.name == name) then
    (symbols.map (fun s => if s.name == name then {s with global := true} else s), pending)
  else
    (symbols, if pending.contains name then pending else pending ++ [name])

/-- The .global operand loop: identifiers are marked, commas skipped,
anything else ends the loop; it also ends at newline or end of input. -/
def globalLoop (toks : List Token) : Nat → Nat → List Sym → List (List Char) →
    Nat × List Sym × List (List Char)
  | 0, i, syms, pend => (i, syms, pend)
  | fuel + 1, i, syms, pend =>
    let t := tokAt toks i
    if t.kind == .NEWLINE || t.kind == .EOF_TOK then (i, syms, pend)
    else if t.kind == .IDENT then
      let sp := markGlobal syms pend t.value
      globalLoop toks fuel (i + 1) sp.1 sp.2
    else if t.kind == .COMMA then globalLoop toks fuel (i + 1) syms pend
    else (i, syms, pend)

def skipLine (toks : List Token) : Nat → Nat → Nat
  | 0, i => i
  | fuel + 1, i =>
    let t := tokAt toks i
    if t.kind == .NEWLINE || t.kind == .EOF_TOK then i else skipLine toks fuel (i + 1)

/-- Low byte of an int32 value, the (uint8_t)(v & 0xFF) cast. -/
def lowByte (v : Int) : Nat := (v % 256).toNat

/-- The 4 little-endian bytes of (uint32_t)v. -/
def le32i (v : Int) : List Nat := le32 ((v % 4294967296).toNat)

/-- The .byte value loop (a do-while over comma-separated values); an
identifier operand parses as a label reference, which .byte rejects. -/
def byteLoop (toks : List Token) : Nat → Nat → List Nat → Except String (Nat × List Nat)
  | 0, _, _ => .error "parser fuel exhausted"
  | fuel + 1, i, data =>
    let t := tokAt toks i
    if t.kind == .IDENT then
      .error ".byte does not support relocations; use .word for labels"
    else
      match parseIntTok toks i with
      | .error e => .error e
      | .ok (v, i1) =>
        let data1 := data ++ [lowByte v]
        if (tokAt toks i1).kind == .COMMA then byteLoop toks fuel (i1 + 1) data1
        else .ok (i1, data1)

/-- The .word directive body: an identifier emits a 4-byte zero
placeholder and a Data relocation at its offset, a numeric operand emits
its 4 little-endian bytes. -/
def wordStep (toks : List Token) (i : Nat) (data : List Nat) (relocs : List Reloc) :
    Except String (Nat × List Nat × List Reloc) :=
  let t := tokAt toks i
  if t.kind == .IDENT then
    match parseLabelRef toks i with
    | .error e => .error e
    | .ok (vl, i1) =>
      match vl.2 with
      | some n => .ok (i1, data ++ [0, 0, 0, 0], relocs ++ [⟨2, data.length, 0, n⟩])
      | none => .ok (i1, data ++ le32i vl.1, relocs)
  else
    match parseIntTok toks i with
    | .error e => .error e
    | .ok (v, i1) => .ok (i1, data ++ le32i v, relocs)

/-- handleDirective: section switches, .global, the Data-only emission
directives, and skip-to-newline for everything else. -/
def handleDirectiveM (toks : List Token) (fuel : Nat) (st : PSt) : Except String PSt :=
  match eatT toks st.i .DIRECTIVE with
  | .error e => .error e
  | .ok (t, i1) =>
    let low := t.value.map Char.toLower
    if low == ".text".toList then .ok {st with current := 1, i := maybeT toks i1 .NEWLINE}
    else if low == ".data".toList then .ok {st with current := 2, i := maybeT toks i1 .NEWLINE}
    else if low == ".global".toList then
      let r := globalLoop toks fuel i1 st.symbols st.pending
      .ok {st with symbols := r.2.1, pending := r.2.2, i := maybeT toks r.1 .NEWLINE}
    else if st.current != 2 then
      .ok {st with i := maybeT toks (skipLine toks fuel i1) .NEWLINE}
    else if low == ".byte".toList then
      match byteLoop toks fuel i1 st.data with
      | .error e => .error e
      | .ok (i2, data1) => .ok {st with data := data1, i := maybeT toks i2 .NEWLINE}
    else if low == ".word".toList then
      match wordStep toks i1 st.data st.relocs with
      | .error e => .error e
      | .ok (i2, dr) =>
        .ok {st with data := dr.1, relocs := dr.2, i := maybeT toks i2 .NEWLINE}
    else
      .ok {st with i := maybeT toks (skipLine toks fuel i1) .NEWLINE}

/-- The main parse loop; every iteration consumes at least one token, so
the fuel passed by parseTop can never run out before EOF is reached. -/
def parseLoop (toks : List Token) : Nat → PSt → Except String PSt
  | 0, _ => .error "parser fuel exhausted"
  | fuel + 1, st =>
    let t := tokAt toks st.i
    if t.kind == .EOF_TOK then .ok st
    else if t.kind == .NEWLINE then parseLoop toks fuel {st with i := st.i + 1}
    else if t.kind == .LABEL then
      let name := t.value.dropLast
      let ofs := if st.current == 1 then 8 * st.instrs.length else st.data.length
      match defineSymbolM {st with i := st.i + 1} name st.current ofs with
      | .error e => .error e
      | .ok st1 => parseLoop toks fuel {st1 with i := maybeT toks st1.i .NEWLINE}
    else if t.kind == .DIRECTIVE then
      match handleDirectiveM toks (toks.length + 2) st with
      | .error e => .error e
      | .ok st1 => parseLoop toks fuel st1
    else if st.current == 1 && t.kind == .IDENT then
      match parseInstrM toks st with
      | .error e => .error e
      | .ok st1 => parseLoop toks fuel {st1 with i := maybeT toks st1.i .NEWLINE}
    else parseLoop toks fuel {st with i := st.i + 1}

/-- End-of-parse materialization of pending globals that were never
defined, as Undef global symbols. -/
def materializeGo (symbols : List Sym) : List (List Char) → List Sym
  | [] => symbols
  | n :: rest =>
    if symbols.any (fun s => s.name == n) then materializeGo symbols rest
    else materializeGo (symbols ++ [⟨n, 0, 0, true⟩]) rest

/-- Parser result (Parser::Result). -/
structure PRes where
  instrs : List Instr
  data : List Nat
  symbols : List Sym
  relocs : List Reloc
deriving DecidableEq, Repr

def parseTop (toks : List Token) : Except String PRes :=
  match parseLoop toks (toks.length + 2) ⟨0, 1, [], [], [], [], []⟩ with
  | .error e => .error e
  | .ok st => .ok ⟨st.instrs, st.data, materializeGo st.symbols st.pending, st.relocs⟩

/-- The assembler front half: macro expansion, lexing, parsing. -/
def assembleIR (src : String) : Except String PRes :=
  match mexpand src.toList with
  | .error e => .error e
  | .ok exp =>
    match lexAll exp with
    | .error e => .error e
    | .ok toks => parseTop toks

/-- The 8-byte encoding of one instruction:
op, rd, rs1, rs2 and the little-endian i32 immediate. -/
def encodeInstr (ins : Instr) : List Nat :=
  [ins.op % 256, ins.rd % 256, ins.rs1 % 256, ins.rs2 % 256] ++ le32i ins.imm

def encodeText (instrs : List Instr) : List Nat := instrs.flatMap encodeInstr

def symRecBytesA (s : Sym) : List Nat :=
  le16 s.sec ++ le16 (if s.global then 1 else 0) ++ le32 s.value ++
    le16 s.name.length ++ s.name.map Char.toNat

def relRecBytesA (r : Reloc) : List Nat :=
  le16 r.sec ++ le16 r.rtype ++ le32 r.offset ++ le16 r.name.length ++ r.name.map Char.toNat

/-- The full assembler (assemble of vm_asm.cpp): object bytes with the
40-byte VMOF header, text, data, symbol blob, relocation blob; all
header fields in uint32_t. -/
def assemble (src : String) : Except String (List Nat) :=
  match assembleIR src with
  | .error e => .error e
  | .ok res =>
    let text := encodeText res.instrs
    let symblob := res.symbols.flatMap symRecBytesA
    let relblob := res.relocs.flatMap relRecBytesA
    let data_off := u32 (40 + u32 text.length)
    let sym_off := u32 (data_off + u32 res.data.length)
    let rel_off := u32 (sym_off + u32 symblob.length)
    .ok (le32 0x564D4F46 ++ le16 2 ++ le16 0 ++
      le32 40 ++ le32 (u32 text.length) ++
      le32 data_off ++ le32 (u32 res.data.length) ++
      le32 sym_off ++ le32 (u32 res.symbols.length) ++
      le32 rel_off ++ le32 (u32 res.relocs.length) ++
      text ++ res.data ++ symblob ++ relblob)

/-- Bound on one symbol record: a Text symbol value is a multiple of 8
and at most the text size 8 * nI, a Data symbol value is at most the
data size nD. -/
def SymOk (nI nD : Nat) (s : Sym) : Prop :=
  (s.sec = 1 → 8 ∣ s.value ∧ s.value ≤ 8 * nI) ∧ (s.sec = 2 → s.value ≤ nD)

/-- Bound on one relocation record: a Text relocation sits at offset
8 * k + 4 with its 4 patched bytes inside the text, a Data relocation's 4
patched bytes sit inside the data. -/
def RelOk (nI nD : Nat) (r : Reloc) : Prop :=
  (r.sec = 1 → (∃ k, r.offset = 8 * k + 4) ∧ r.offset + 4 ≤ 8 * nI) ∧
    (r.sec = 2 → r.offset + 4 ≤ nD)

def InvAt (nI nD : Nat) (syms : List Sym) (rels : List Reloc) : Prop :=
  (∀ s ∈ syms, SymOk nI nD s) ∧ (∀ r ∈ rels, RelOk nI nD r)

/-- The parser-state invariant carried through the parse loop. -/
def StInv (st : PSt) : Prop := InvAt st.instrs.length st.data.length st.symbols st.relocs

end VmAsm

section ClaimInputs

open VmBytes VmLink

/-- Object used for C1: the assembly of the spec's S4 scenario, one halt
instruction, a 4-byte data placeholder at offset 0, symbols ptr (Data, 0)
and main (Text, 0, global), and one Data relocation at offset 0 naming
main. -/
def c1obj : ObjFile :=
  ⟨"a.vmo", [15, 0, 0, 0, 0, 0, 0, 0], [0, 0, 0, 0],
    [⟨2, 0, 0, [112, 116, 114]⟩, ⟨1, 1, 0, mainName⟩],
    [⟨2, 0, 0, mainName⟩]⟩

/-- The serialized .vmo image of c1obj, built field by field. -/
def c1bytes : List Nat :=
  le32 0x564D4F46 ++ le16 2 ++ le16 0 ++
    le32 40 ++ le32 8 ++ le32 48 ++ le32 4 ++ le32 52 ++ le32 2 ++ le32 79 ++ le32 1 ++
    [15, 0, 0, 0, 0, 0, 0, 0] ++ [0, 0, 0, 0] ++
    (le16 2 ++ le16 0 ++ le32 0 ++ le16 3 ++ [112, 116, 114]) ++
    (le16 1 ++ le16 1 ++ le32 0 ++ le16 4 ++ mainName) ++
    (le16 2 ++ le16 0 ++ le32 0 ++ le16 4 ++ mainName)

/-- Global table the first pass builds for [c1obj]. -/
def c1g : GTab := [([112, 116, 114], ⟨2, 8, 0, 0⟩), (mainName, ⟨1, 0, 1, 0⟩)]

/-- Object used for C2: one halt instruction, 4 data bytes, global
symbols main (Text, 0) and d (Data, 0), no relocations. -/
def c2obj : ObjFile :=
  ⟨"a.vmo", [15, 0, 0, 0, 0, 0, 0, 0], [1, 2, 3, 4],
    [⟨1, 1, 0, mainName⟩, ⟨2, 1, 0, [100]⟩], []⟩

/-- Executable bytes produced for [c2obj], up to the record of symbol d. -/
def c2pre : List Nat :=
  [69, 67, 77, 86, 2, 0, 0, 0, 40, 0, 0, 0, 8, 0, 0, 0, 48, 0, 0, 0, 4, 0, 0, 0,
   52, 0, 0, 0, 2, 0, 0, 0, 77, 0, 0, 0, 0, 0, 0, 0,
   15, 0, 0, 0, 0, 0, 0, 0, 1, 2, 3, 4,
   1, 0, 1, 0, 0, 0, 0, 0, 4, 0, 109, 97, 105, 110]

/-- Pair of objects used for the C7 witness: both define the name m. -/
def c7objA : ObjFile := ⟨"x.vmo", [], [], [⟨1, 0, 0, [109]⟩], []⟩

def c7objB : ObjFile := ⟨"y.vmo", [], [], [⟨1, 0, 0, [109]⟩], []⟩

/-- Object used for the C8 witness: a single Text relocation naming foo,
which nothing defines. -/
def c8obj : ObjFile := ⟨"b.vmo", [15, 0, 0, 0, 0, 0, 0, 0], [], [], [⟨1, 0, 4, [102, 111, 111]⟩]⟩

/-- Empty object used for the C9 witness. -/
def c9obj : ObjFile := ⟨"a.vmo", [], [], [], []⟩

/-- Executable the linker produces for [c9obj]. -/
def c9out : List Nat :=
  [69, 67, 77, 86, 2, 0, 0, 0, 40, 0, 0, 0, 0, 0, 0, 0, 40, 0, 0, 0, 0, 0, 0, 0,
   40, 0, 0, 0, 0, 0, 0, 0, 40, 0, 0, 0, 0, 0, 0, 0, 69, 78, 84, 82, 0, 0, 0, 0]

/-- Input buffer used for C10: a 40-byte header with good magic whose
text_off + text_size wraps modulo 2^32 to a small value. -/
def c10buf : List Nat :=
  le32 0x564D4F46 ++ le16 2 ++ le16 0 ++
    le32 4294967292 ++ le32 8 ++ le32 40 ++ le32 0 ++ le32 40 ++ le32 0 ++ le32 40 ++ le32 0

end ClaimInputs

/-! Helper lemmas about the linker model. -/

namespace VmLink

open VmBytes

theorem mem_insertRef (acc : List (List Nat)) (x n : List Nat) :
    n ∈ insertRef acc x ↔ n ∈ acc ∨ n = x := by
  unfold insertRef
  split
  · exact ⟨Or.inl, fun h => h.elim id (fun he => by rw [he]; assumption)⟩
  · simp [List.mem_append]

theorem mem_foldl_insertRef (l : List (List Nat)) :
    ∀ (acc : List (List Nat)) (n : List Nat), n ∈ l.foldl insertRef acc ↔ n ∈ acc ∨ n ∈ l := by
  induction l with
  | nil => simp
  | cons x xs ih =>
    intro acc n
    simp only [List.foldl_cons]
    rw [ih, mem_insertRef, List.mem_cons]
    tauto

theorem mem_referenced_aux (objs : List ObjFile) :
    ∀ (acc : List (List Nat)) (n : List Nat),
      n ∈ objs.foldl (fun acc o => (refNames o).foldl insertRef acc) acc ↔
        n ∈ acc ∨ ∃ o ∈ objs, n ∈ refNames o := by
  induction objs with
  | nil => simp
  | cons o os ih =>
    intro acc n
    simp only [List.foldl_cons]
    rw [ih, mem_foldl_insertRef]
    simp only [List.mem_cons]
    constructor
    · rintro ((h | h) | ⟨o1, h1, h2⟩)
      · exact Or.inl h
      · exact Or.inr ⟨o, Or.inl rfl, h⟩
      · exact Or.inr ⟨o1, Or.inr h1, h2⟩
    · rintro (h | ⟨o1, (rfl | h1), h2⟩)
      · exact Or.inl (Or.inl h)
      · exact Or.inl (Or.inr h2)
      · exact Or.inr ⟨o1, h1, h2⟩

theorem mem_referenced (objs : List ObjFile) (n : List Nat) :
    n ∈ referenced objs ↔ ∃ o ∈ objs, n ∈ refNames o := by
  unfold referenced
  rw [mem_referenced_aux]
  simp

theorem mem_refNames (o : ObjFile) (n : List Nat) :
    n ∈ refNames o ↔ (∃ r ∈ o.relocs, r.name = n) ∨ ∃ s ∈ o.symbols, s.sec = 0 ∧ s.name = n := by
  unfold refNames
  simp only [List.mem_append, List.mem_map, List.mem_filter, beq_iff_eq]
  constructor
  · rintro (⟨r, hr, rfl⟩ | ⟨s, ⟨hs, hsec⟩, rfl⟩)
    · exact Or.inl ⟨r, hr, rfl⟩
    · exact Or.inr ⟨s, hs, hsec, rfl⟩
  · rintro (⟨r, hr, rfl⟩ | ⟨s, hs, hsec, rfl⟩)
    · exact Or.inl ⟨r, hr, rfl⟩
    · exact Or.inr ⟨s, ⟨hs, hsec⟩, rfl⟩

theorem insertSym_ok_cases {objs : List ObjFile} {oi : Nat} {g : GTab} {s : SymRec} {g1 : GTab}
    (h : insertSym objs oi g s = .ok g1) :
    (s.sec = 0 ∧ g1 = g) ∨
      (s.sec ≠ 0 ∧ s.name ∉ g.map Prod.fst ∧
        ∃ gs : GlobalSym, gs.defObj = oi ∧ g1 = g ++ [(s.name, gs)]) := by
  unfold insertSym at h
  split at h
  · rename_i hsec
    injection h with h1
    exact Or.inl ⟨by simpa using hsec, h1.symm⟩
  · rename_i hsec
    right
    refine ⟨by simpa using hsec, ?_⟩
    split at h
    · exact Except.noConfusion h
    · rename_i hfind
      injection h with h1
      rw [List.find?_eq_none] at hfind
      refine ⟨?_, ⟨_, rfl, h1.symm⟩⟩
      intro hmem
      obtain ⟨p, hp, hp1⟩ := List.mem_map.mp hmem
      exact hfind p hp (by simp [hp1])

theorem insertSym_err_cases {objs : List ObjFile} {oi : Nat} {g : GTab} {s : SymRec} {e : String}
    (h : insertSym objs oi g s = .error e) :
    s.sec ≠ 0 ∧ ∃ p ∈ g, p.1 = s.name ∧
      e = dupMsg s.name (pathOf objs p.2.defObj) (pathOf objs oi) := by
  unfold insertSym at h
  split at h
  · exact Except.noConfusion h
  · rename_i hsec
    refine ⟨by simpa using hsec, ?_⟩
    split at h
    · rename_i p hfind
      injection h with h1
      exact ⟨p, List.mem_of_find?_eq_some hfind, by simpa using List.find?_some hfind, h1.symm⟩
    · exact Except.noConfusion h

theorem insertSym_ok_ginv {objs : List ObjFile} {oi : Nat} {g : GTab} {s : SymRec} {g1 : GTab}
    (ho : objs.getD oi dfltObj ∈ objs) (hs : s ∈ (objs.getD oi dfltObj).symbols)
    (h : insertSym objs oi g s = .ok g1) (hinv : GInv objs g) : GInv objs g1 := by
  rcases insertSym_ok_cases h with ⟨_, rfl⟩ | ⟨hsec, _, gs, hdef, rfl⟩
  · exact hinv
  · intro p hp
    rcases List.mem_append.mp hp with hp | hp
    · exact hinv p hp
    · rcases List.mem_singleton.mp hp with rfl
      refine ⟨objs.getD oi dfltObj, ho, ?_, ?_⟩
      · unfold definedNames definedNamesL
        exact List.mem_map.mpr ⟨s, List.mem_filter.mpr ⟨hs, by simpa using hsec⟩, rfl⟩
      · simp only [hdef]
        rfl

theorem insertSyms_ok_names {objs : List ObjFile} {oi : Nat} :
    ∀ (syms : List SymRec) (g g' : GTab), insertSyms objs oi g syms = .ok g' →
      g'.map Prod.fst = g.map Prod.fst ++ definedNamesL syms := by
  intro syms
  induction syms with
  | nil =>
    intro g g' h
    injection h with h1
    simp [h1, definedNamesL]
  | cons s rest ih =>
    intro g g' h
    unfold insertSyms at h
    cases hi : insertSym objs oi g s with
    | error e => simp only [hi] at h; exact Except.noConfusion h
    | ok g1 =>
      simp only [hi] at h
      rcases insertSym_ok_cases hi with ⟨hsec, rfl⟩ | ⟨hsec, hfresh, gs, hdef, rfl⟩
      · rw [ih g1 g' h]
        unfold definedNamesL
        rw [List.filter_cons_of_neg (by simpa using hsec)]
      · rw [ih _ g' h]
        unfold definedNamesL
        rw [List.filter_cons_of_pos (by simpa using hsec)]
        simp

theorem insertSyms_ok_nodup {objs : List ObjFile} {oi : Nat} :
    ∀ (syms : List SymRec) (g g' : GTab), insertSyms objs oi g syms = .ok g' →
      (g.map Prod.fst).Nodup → (g'.map Prod.fst).Nodup := by
  intro syms
  induction syms with
  | nil =>
    intro g g' h hd
    injection h with h1
    rwa [← h1]
  | cons s rest ih =>
    intro g g' h hd
    unfold insertSyms at h
    cases hi : insertSym objs oi g s with
    | error e => simp only [hi] at h; exact Except.noConfusion h
    | ok g1 =>
      simp only [hi] at h
      rcases insertSym_ok_cases hi with ⟨hsec, rfl⟩ | ⟨hsec, hfresh, gs, hdef, rfl⟩
      · exact ih g1 g' h hd
      · refine ih _ g' h ?_
        rw [List.map_append, List.nodup_append]
        refine ⟨hd, by simp, ?_⟩
        intro a ha hb
        simp only [List.map_cons, List.map_nil, List.mem_singleton] at hb
        rw [hb] at ha
        exact hfresh ha

theorem insertSyms_ok_ginv {objs : List ObjFile} {oi : Nat}
    (ho : objs.getD oi dfltObj ∈ objs) :
    ∀ (syms : List SymRec) (g g' : GTab),
      (∀ s ∈ syms, s ∈ (objs.getD oi dfltObj).symbols) →
      insertSyms objs oi g syms = .ok g' → GInv objs g → GInv objs g' := by
  intro syms
  induction syms with
  | nil =>
    intro g g' _ h hinv
    injection h with h1
    rwa [← h1]
  | cons s rest ih =>
    intro g g' hsub h hinv
    unfold insertSyms at h
    cases hi : insertSym objs oi g s with
    | error e => simp only [hi] at h; exact Except.noConfusion h
    | ok g1 =>
      simp only [hi] at h
      exact ih g1 g' (fun x hx => hsub x (List.mem_cons_of_mem s hx)) h
        (insertSym_ok_ginv ho (hsub s (List.mem_cons_self s rest)) hi hinv)

theorem insertSyms_err_dup {objs : List ObjFile} {oi : Nat}
    (ho : objs.getD oi dfltObj ∈ objs) :
    ∀ (syms : List SymRec) (g : GTab) (e : String),
      (∀ s ∈ syms, s ∈ (objs.getD oi dfltObj).symbols) →
      insertSyms objs oi g syms = .error e → GInv objs g → dupForm objs e := by
  intro syms
  induction syms with
  | nil =>
    intro g e _ h _
    exact Except.noConfusion h
  | cons s rest ih =>
    intro g e hsub h hinv
    unfold insertSyms at h
    cases hi : insertSym objs oi g s with
    | error e1 =>
      simp only [hi] at h
      injection h with h1
      obtain ⟨hsec, p, hp, hp1, he⟩ := insertSym_err_cases hi
      obtain ⟨a, ha, han, hap⟩ := hinv p hp
      refine ⟨s.name, a, objs.getD oi dfltObj, ha, ho, ?_, ?_, ?_⟩
      · rwa [hp1] at han
      · unfold definedNames definedNamesL
        exact List.mem_map.mpr
          ⟨s, List.mem_filter.mpr ⟨hsub s (List.mem_cons_self s rest), by simpa using hsec⟩, rfl⟩
      · rw [← h1, he, hap]
        rfl
    | ok g1 =>
      simp only [hi] at h
      exact ih g1 e (fun x hx => hsub x (List.mem_cons_of_mem s hx)) h
        (insertSym_ok_ginv ho (hsub s (List.mem_cons_self s rest)) hi hinv)

theorem buildGo_ok_names {objs : List ObjFile} :
    ∀ (pairs : List (Nat × ObjFile)) (g g' : GTab), buildGsymGo objs g pairs = .ok g' →
      g'.map Prod.fst = g.map Prod.fst ++ (pairs.map (fun q => definedNames q.2)).flatten := by
  intro pairs
  induction pairs with
  | nil =>
    intro g g' h
    injection h with h1
    simp [h1]
  | cons q rest ih =>
    intro g g' h
    unfold buildGsymGo at h
    cases hi : insertSyms objs q.1 g q.2.symbols with
    | error e => simp only [hi] at h; exact Except.noConfusion h
    | ok g1 =>
      simp only [hi] at h
      rw [ih g1 g' h, insertSyms_ok_names q.2.symbols g g1 hi]
      simp [definedNames]

theorem buildGo_ok_nodup {objs : List ObjFile} :
    ∀ (pairs : List (Nat × ObjFile)) (g g' : GTab), buildGsymGo objs g pairs = .ok g' →
      (g.map Prod.fst).Nodup → (g'.map Prod.fst).Nodup := by
  intro pairs
  induction pairs with
  | nil =>
    intro g g' h hd
    injection h with h1
    rwa [← h1]
  | cons q rest ih =>
    intro g g' h hd
    unfold buildGsymGo at h
    cases hi : insertSyms objs q.1 g q.2.symbols with
    | error e => simp only [hi] at h; exact Except.noConfusion h
    | ok g1 =>
      simp only [hi] at h
      exact ih g1 g' h (insertSyms_ok_nodup q.2.symbols g g1 hi hd)

theorem buildGo_err_dup {objs : List ObjFile} :
    ∀ (pairs : List (Nat × ObjFile)) (g : GTab) (e : String),
      (∀ q ∈ pairs, q.2 = objs.getD q.1 dfltObj ∧ q.2 ∈ objs) →
      buildGsymGo objs g pairs = .error e → GInv objs g → dupForm objs e := by
  intro pairs
  induction pairs with
  | nil =>
    intro g e _ h _
    exact Except.noConfusion h
  | cons q rest ih =>
    intro g e hq h hinv
    obtain ⟨hq1, hq2⟩ := hq q (List.mem_cons_self q rest)
    have ho : objs.getD q.1 dfltObj ∈ objs := by rw [← hq1]; exact hq2
    have hsub : ∀ s ∈ q.2.symbols, s ∈ (objs.getD q.1 dfltObj).symbols := by
      intro s hs; rw [← hq1]; exact hs
    unfold buildGsymGo at h
    cases hi : insertSyms objs q.1 g q.2.symbols with
    | error e1 =>
      simp only [hi] at h
      injection h with h1
      rw [← h1]
      exact insertSyms_err_dup ho q.2.symbols g e1 hsub hi hinv
    | ok g1 =>
      simp only [hi] at h
      exact ih g1 e (fun x hx => hq x (List.mem_cons_of_mem q hx)) h
        (insertSyms_ok_ginv ho q.2.symbols g g1 hsub hi hinv)

theorem enum_spec (objs : List ObjFile) :
    ∀ q ∈ objs.enum, q.2 = objs.getD q.1 dfltObj ∧ q.2 ∈ objs := by
  intro q hq
  rw [List.mem_enum_iff_getElem?] at hq
  constructor
  · rw [List.getD_eq_getElem?_getD, hq]
    rfl
  · exact List.getElem?_mem hq

theorem buildGsym_ok_nodup {objs : List ObjFile} {g : GTab} (h : buildGsym objs = .ok g) :
    ((objs.map definedNames).flatten).Nodup := by
  unfold buildGsym at h
  have hn := buildGo_ok_names objs.enum [] g h
  have hd := buildGo_ok_nodup objs.enum [] g h (by simp)
  rw [hn] at hd
  have hmap : objs.enum.map (fun q => definedNames q.2) = objs.map definedNames := by
    rw [show (fun q : Nat × ObjFile => definedNames q.2) = definedNames ∘ Prod.snd from rfl]
    rw [← List.map_map, List.enum_map_snd]
  rw [hmap] at hd
  simpa using hd

end VmLink

/-! Claim theorems about the linker. -/

open VmBytes VmLink in
/-- Claim C1 (code-bug evidence).  The listed object file parses
without a magic or truncation error, defines no duplicate symbol and
leaves no reference unresolved, and its single Data relocation lies
within its data section; yet the linker fails with a relocation
out-of-range error instead of patching the 4 bytes at the relocation's
place in the merged data buffer, because it uses the absolute data base
address (which counts all text) as an index into the data-only buffer. -/
theorem claim_C1_data_reloc_out_of_range :
    parse_vmo "a.vmo" c1bytes =
      .ok ⟨"a.vmo", c1bytes, c1obj.text, c1obj.data, c1obj.symbols, c1obj.relocs⟩ ∧
    buildGsym [c1obj] = .ok c1g ∧
    undefListOf [c1obj] c1g = [] ∧
    c1obj.relocs = [⟨2, 0, 0, mainName⟩] ∧
    0 + 4 ≤ c1obj.data.length ∧
    linkCore [c1obj] = .error (oorMsg "a.vmo" mainName) := by
  decide

open VmBytes VmLink in
/-- Claim C2 (code-bug evidence).  Linking [c2obj] succeeds; the symbol
d has absolute address 8, equal to the total merged text size, so the
claim requires its executable symbol record to carry section Data (2);
the code compares against the end of the data region instead and stores
section Text (1). -/
theorem claim_C2_exe_symbol_section :
    linkCore [c2obj] =
      .ok (c2pre ++ symRecBytes (dataEnd [c2obj]) ([100], 8) ++ ([69, 78, 84, 82] ++ le32 0)) ∧
    totalText [c2obj] = 8 ∧
    symRecBytes (dataEnd [c2obj]) ([100], 8) = le16 1 ++ le16 1 ++ le32 8 ++ le16 1 ++ [100] ∧
    exeSecOf (dataEnd [c2obj]) 8 = 1 := by
  decide

open VmBytes VmLink in
/-- Claim C7.  Whenever two different input objects both define a symbol
of the same name, the linker core fails (producing no output bytes), and
the duplicate-symbol error message names the paths of two input objects
that both define the reported name. -/
theorem claim_C7_duplicate_symbol_error :
    ∀ (objs : List ObjFile) (oi oj : Nat) (hi : oi < objs.length) (hj : oj < objs.length)
      (n : List Nat), oi ≠ oj →
      n ∈ definedNames (objs.get ⟨oi, hi⟩) → n ∈ definedNames (objs.get ⟨oj, hj⟩) →
      ∃ m a b, a ∈ objs ∧ b ∈ objs ∧ m ∈ definedNames a ∧ m ∈ definedNames b ∧
        linkCore objs = .error (dupMsg m a.path b.path) := by
  intro objs oi oj hi hj n hne hni hnj
  cases hb : buildGsym objs with
  | ok g =>
    exfalso
    have hnd := buildGsym_ok_nodup hb
    rw [List.nodup_flatten] at hnd
    have hpw := hnd.2
    rw [List.pairwise_iff_get] at hpw
    have hgi : (objs.map definedNames).get ⟨oi, by simpa using hi⟩ =
        definedNames (objs.get ⟨oi, hi⟩) := by simp
    have hgj : (objs.map definedNames).get ⟨oj, by simpa using hj⟩ =
        definedNames (objs.get ⟨oj, hj⟩) := by simp
    rcases Nat.lt_or_ge oi oj with hlt | hge
    · have hd := hpw ⟨oi, by simpa using hi⟩ ⟨oj, by simpa using hj⟩ hlt
      rw [hgi, hgj] at hd
      exact hd hni hnj
    · have hlt : oj < oi := Nat.lt_of_le_of_ne hge (Ne.symm hne)
      have hd := hpw ⟨oj, by simpa using hj⟩ ⟨oi, by simpa using hi⟩ hlt
      rw [hgi, hgj] at hd
      exact hd hnj hni
  | error e =>
    have hdf : dupForm objs e := by
      unfold buildGsym at hb
      exact buildGo_err_dup objs.enum [] e (enum_spec objs) hb
        (fun p hp => absurd hp (List.not_mem_nil p))
    obtain ⟨m, a, b, ha, hb2, hma, hmb, he⟩ := hdf
    refine ⟨m, a, b, ha, hb2, hma, hmb, ?_⟩
    unfold linkCore
    simp only [hb, he]

open VmBytes VmLink in
/-- Witness for C7 at two concrete objects that both define the name m. -/
theorem claim_C7_witness :
    ∃ m a b, a ∈ [c7objA, c7objB] ∧ b ∈ [c7objA, c7objB] ∧
      m ∈ definedNames a ∧ m ∈ definedNames b ∧
      linkCore [c7objA, c7objB] = .error (dupMsg m a.path b.path) :=
  claim_C7_duplicate_symbol_error [c7objA, c7objB] 0 1 (by decide) (by decide) [109]
    (by decide) (by decide) (by decide)

open VmBytes VmLink in
/-- Claim C8.  Given a successful first pass, a name is in the
unresolved list exactly when it is referenced (as a relocation target or
as an Undef symbol-table entry of some input) and absent from the global
table; the linker fails with the message listing that list whenever it
is non-empty, and otherwise proceeds with the remaining link steps. -/
theorem claim_C8_undefined_reference_check :
    ∀ (objs : List ObjFile) (g : GTab), buildGsym objs = .ok g →
      ((∀ n, n ∈ undefListOf objs g ↔
          ((∃ o ∈ objs, (∃ r ∈ o.relocs, r.name = n) ∨ ∃ s ∈ o.symbols, s.sec = 0 ∧ s.name = n) ∧
            gLookup g n = none)) ∧
        (undefListOf objs g ≠ [] →
          linkCore objs = .error (undefMsg (undefListOf objs g))) ∧
        (undefListOf objs g = [] → linkCore objs = linkRest objs g)) := by
  intro objs g hg
  refine ⟨?_, ?_, ?_⟩
  · intro n
    unfold undefListOf
    rw [List.mem_filter, mem_referenced]
    simp only [Option.isNone_iff_eq_none]
    constructor
    · rintro ⟨⟨o, ho, hn⟩, hnone⟩
      exact ⟨⟨o, ho, (mem_refNames o n).mp hn⟩, hnone⟩
    · rintro ⟨⟨o, ho, hn⟩, hnone⟩
      exact ⟨⟨o, ho, (mem_refNames o n).mpr hn⟩, hnone⟩
  · intro hne
    unfold linkCore
    simp only [hg]
    rw [if_neg hne]
  · intro he
    unfold linkCore
    simp only [hg]
    rw [if_pos he]

open VmBytes VmLink in
/-- Witness for C8 at a concrete object whose only relocation names the
undefined symbol foo: the link fails listing it. -/
theorem claim_C8_witness :
    linkCore [c8obj] = .error (undefMsg (undefListOf [c8obj] [])) :=
  (claim_C8_undefined_reference_check [c8obj] [] (by decide)).2.1 (by decide)

open VmBytes VmLink in
/-- Claim C9.  Every successful link produces the executable header,
merged text, merged data and symbol blob followed immediately by the
8-byte trailer: the bytes E,N,T,R (69,78,84,82) and the entry point as a
little-endian u32, where the entry point is the absolute address of the
symbol main when the global table defines it and 0 otherwise. -/
theorem claim_C9_entry_trailer :
    ∀ (objs : List ObjFile) (out : List Nat),
      linkCore objs = .ok out →
      ∃ (g : GTab) (ft fd : List Nat),
        buildGsym objs = .ok g ∧
        out = exeHeader ft.length fd.length (symBlobOf g (dataEnd objs)).length
            (exeEntries g).length ++ ft ++ fd ++ symBlobOf g (dataEnd objs) ++
            ([69, 78, 84, 82] ++ le32 (entryOf g)) ∧
        (∀ gs, gLookup g mainName = some gs → entryOf g = gs.addr) ∧
        (gLookup g mainName = none → entryOf g = 0) := by
  intro objs out h
  unfold linkCore at h
  cases hg : buildGsym objs with
  | error e => simp only [hg] at h; exact Except.noConfusion h
  | ok g =>
    simp only [hg] at h
    by_cases hu : undefListOf objs g = []
    · rw [if_pos hu] at h
      unfold linkRest at h
      cases ha : applyAll objs g with
      | error e => simp only [ha] at h; exact Except.noConfusion h
      | ok bufs =>
        simp only [ha] at h
        injection h with h1
        refine ⟨g, bufs.1, bufs.2, rfl, ?_, ?_, ?_⟩
        · rw [← h1]; rfl
        · intro gs hgs; unfold entryOf; rw [hgs]
        · intro hnone; unfold entryOf; rw [hnone]
    · rw [if_neg hu] at h
      exact Except.noConfusion h

open VmBytes VmLink in
/-- Witness for C9 at the one-empty-object link, whose output is the
48-byte executable c9out ending in the ENTR trailer with entry 0. -/
theorem claim_C9_witness :
    ∃ (g : GTab) (ft fd : List Nat),
      buildGsym [c9obj] = .ok g ∧
      c9out = exeHeader ft.length fd.length (symBlobOf g (dataEnd [c9obj])).length
          (exeEntries g).length ++ ft ++ fd ++ symBlobOf g (dataEnd [c9obj]) ++
          ([69, 78, 84, 82] ++ le32 (entryOf g)) ∧
      (∀ gs, gLookup g mainName = some gs → entryOf g = gs.addr) ∧
      (gLookup g mainName = none → entryOf g = 0) :=
  claim_C9_entry_trailer [c9obj] c9out (by decide)

open VmBytes VmLink in
/-- Claim C10 (code-bug evidence).  A 40-byte buffer with the correct
magic whose text_off and text_size sum to 2^32 + 4 passes the reader's
section range checks, because the sum is computed in uint32_t and wraps
to 4; the reader returns without error although text_off + text_size
exceeds the buffer length as unbounded integers. -/
theorem claim_C10_section_bounds_overflow :
    c10buf.length = 40 ∧
    ru32 c10buf 0 = 0x564D4F46 ∧
    ru32 c10buf 8 = 4294967292 ∧
    ru32 c10buf 12 = 8 ∧
    parse_vmo "f.vmo" c10buf = .ok ⟨"f.vmo", c10buf, [], [], [], []⟩ ∧
    ru32 c10buf 8 + ru32 c10buf 12 > c10buf.length := by
  decide

namespace VmAsm

theorem symOk_mono {nI nI' nD nD' : Nat} {s : Sym} (hI : nI ≤ nI') (hD : nD ≤ nD')
    (h : SymOk nI nD s) : SymOk nI' nD' s :=
  ⟨fun h1 => ⟨(h.1 h1).1, le_trans (h.1 h1).2 (by omega)⟩, fun h2 => le_trans (h.2 h2) hD⟩

theorem relOk_mono {nI nI' nD nD' : Nat} {r : Reloc} (hI : nI ≤ nI') (hD : nD ≤ nD')
    (h : RelOk nI nD r) : RelOk nI' nD' r :=
  ⟨fun h1 => ⟨(h.1 h1).1, le_trans (h.1 h1).2 (by omega)⟩, fun h2 => le_trans (h.2 h2) hD⟩

theorem invAt_mono {nI nI' nD nD' : Nat} {sy : List Sym} {rl : List Reloc}
    (hI : nI ≤ nI') (hD : nD ≤ nD') (h : InvAt nI nD sy rl) : InvAt nI' nD' sy rl :=
  ⟨fun s hs => symOk_mono hI hD (h.1 s hs), fun r hr => relOk_mono hI hD (h.2 r hr)⟩

theorem symOk_of_eq {nI nD : Nat} {s s' : Sym} (hsec : s'.sec = s.sec)
    (hval : s'.value = s.value) (h : SymOk nI nD s) : SymOk nI nD s' := by
  unfold SymOk at h ⊢
  rw [hsec, hval]
  exact h

theorem markGlobal_syms {syms : List Sym} {pend : List (List Char)} {n : List Char} :
    ∀ s' ∈ (markGlobal syms pend n).1, ∃ s ∈ syms, s'.sec = s.sec ∧ s'.value = s.value := by
  unfold markGlobal
  split
  · intro s' hs'
    obtain ⟨s, hs, he⟩ := List.mem_map.mp hs'
    refine ⟨s, hs, ?_⟩
    rw [← he]
    split
    · exact ⟨rfl, rfl⟩
    · exact ⟨rfl, rfl⟩
  · intro s' hs'
    exact ⟨s', hs', rfl, rfl⟩

theorem globalLoop_syms {toks : List Token} :
    ∀ (fuel i : Nat) (syms : List Sym) (pend : List (List Char)),
      ∀ s' ∈ (globalLoop toks fuel i syms pend).2.1,
        ∃ s ∈ syms, s'.sec = s.sec ∧ s'.value = s.value := by
  intro fuel
  induction fuel with
  | zero =>
    intro i syms pend s' hs'
    exact ⟨s', hs', rfl, rfl⟩
  | succ fuel ih =>
    intro i syms pend s' hs'
    unfold globalLoop at hs'
    dsimp only at hs'
    split at hs'
    · exact ⟨s', hs', rfl, rfl⟩
    · split at hs'
      · obtain ⟨s1, hs1, he1, he2⟩ := ih (i + 1) _ _ s' hs'
        obtain ⟨s, hs, he3, he4⟩ := markGlobal_syms s1 hs1
        exact ⟨s, hs, he1.trans he3, he2.trans he4⟩
      · split at hs'
        · exact ih (i + 1) syms pend s' hs'
        · exact ⟨s', hs', rfl, rfl⟩

theorem byteLoop_data {toks : List Token} :
    ∀ (fuel i : Nat) (data : List Nat) (i2 : Nat) (data2 : List Nat),
      byteLoop toks fuel i data = .ok (i2, data2) → ∃ ext, data2 = data ++ ext := by
  intro fuel
  induction fuel with
  | zero =>
    intro i data i2 data2 h
    exact Except.noConfusion h
  | succ fuel ih =>
    intro i data i2 data2 h
    unfold byteLoop at h
    dsimp only at h
    split at h
    · exact Except.noConfusion h
    · cases hp : parseIntTok toks i with
      | error e => rw [hp] at h; exact Except.noConfusion h
      | ok vi =>
        rw [hp] at h
        obtain ⟨v, i1⟩ := vi
        dsimp only at h
        split at h
        · obtain ⟨ext, he⟩ := ih (i1 + 1) (data ++ [lowByte v]) i2 data2 h
          exact ⟨[lowByte v] ++ ext, by rw [he, List.append_assoc]⟩
        · injection h with h1
          injection h1 with h2 h3
          exact ⟨[lowByte v], h3.symm⟩

theorem wordStep_shape {toks : List Token} {i : Nat} {data : List Nat} {relocs : List Reloc}
    {i2 : Nat} {dr : List Nat × List Reloc}
    (h : wordStep toks i data relocs = .ok (i2, dr)) :
    (∃ n, dr.1 = data ++ [0, 0, 0, 0] ∧ dr.2 = relocs ++ [⟨2, data.length, 0, n⟩]) ∨
      (∃ bs : List Nat, bs.length = 4 ∧ dr.1 = data ++ bs ∧ dr.2 = relocs) := by
  unfold wordStep at h
  dsimp only at h
  split at h
  · cases hp : parseLabelRef toks i with
    | error e => rw [hp] at h; exact Except.noConfusion h
    | ok vl =>
      rw [hp] at h
      dsimp only at h
      split at h
      · rename_i n hn
        injection h with h1
        injection h1 with h2 h3
        rw [← h3]
        exact Or.inl ⟨n, rfl, rfl⟩
      · injection h with h1
        injection h1 with h2 h3
        rw [← h3]
        exact Or.inr ⟨_, by simp [le32i, VmBytes.le32], rfl, rfl⟩
  · cases hp : parseIntTok toks i with
    | error e => rw [hp] at h; exact Except.noConfusion h
    | ok vi =>
      rw [hp] at h
      injection h with h1
      injection h1 with h2 h3
      rw [← h3]
      exact Or.inr ⟨_, by simp [le32i, VmBytes.le32], rfl, rfl⟩

end VmAsm

namespace VmAsm

theorem finishInstr_inv {st : PSt} {iNew op : Nat} {ops : Operands} {line : Nat}
    (hs : StInv st) : StInv (finishInstr st iNew op ops line) := by
  unfold finishInstr
  dsimp only
  cases hl : ops.lbl with
  | none =>
    refine ⟨fun s hsm => symOk_mono (by simp) le_rfl (hs.1 s hsm),
      fun r hrm => relOk_mono (by simp) le_rfl (hs.2 r hrm)⟩
  | some n =>
    refine ⟨fun s hsm => symOk_mono (by simp) le_rfl (hs.1 s hsm), fun r hrm => ?_⟩
    rcases List.mem_append.mp hrm with hm | hm
    · exact relOk_mono (by simp) le_rfl (hs.2 r hm)
    · rcases List.mem_singleton.mp hm with rfl
      constructor
      · intro h1
        refine ⟨⟨st.instrs.length, rfl⟩, ?_⟩
        simp
        omega
      · intro h2
        exact absurd h2 (by simp)

theorem parseInstrM_inv {toks : List Token} {st st' : PSt}
    (h : parseInstrM toks st = .ok st') (hs : StInv st) : StInv st' := by
  unfold parseInstrM at h
  cases he : eatT toks st.i .IDENT with
  | error e => rw [he] at h; exact Except.noConfusion h
  | ok ti =>
    rw [he] at h
    obtain ⟨t, i1⟩ := ti
    dsimp only at h
    cases hm : mnemOf (t.value.map Char.toLower) with
    | none => rw [hm] at h; exact Except.noConfusion h
    | some op =>
      rw [hm] at h
      dsimp only at h
      cases hp : parseOperands toks i1 op with
      | error e => rw [hp] at h; exact Except.noConfusion h
      | ok oi =>
        rw [hp] at h
        obtain ⟨ops, i2⟩ := oi
        dsimp only at h
        injection h with h1
        rw [← h1]
        exact finishInstr_inv hs

theorem defineSymbolM_inv {st : PSt} {name : List Char} {sec value : Nat} {st' : PSt}
    (h : defineSymbolM st name sec value = .ok st') (hs : StInv st)
    (hnew : ∀ b, SymOk st.instrs.length st.data.length ⟨name, sec, value, b⟩) : StInv st' := by
  unfold defineSymbolM at h
  split at h
  · exact Except.noConfusion h
  · injection h with h1
    rw [← h1]
    refine ⟨fun s hsm => ?_, hs.2⟩
    rcases List.mem_append.mp hsm with hm | hm
    · exact hs.1 s hm
    · rcases List.mem_singleton.mp hm with rfl
      exact hnew _

theorem handleDirectiveM_inv {toks : List Token} {fuel : Nat} {st st' : PSt}
    (h : handleDirectiveM toks fuel st = .ok st') (hs : StInv st) : StInv st' := by
  unfold handleDirectiveM at h
  cases he : eatT toks st.i .DIRECTIVE with
  | error e => rw [he] at h; exact Except.noConfusion h
  | ok ti =>
    rw [he] at h
    obtain ⟨t, i1⟩ := ti
    dsimp only at h
    split at h
    · injection h with h1; rw [← h1]; exact hs
    · split at h
      · injection h with h1; rw [← h1]; exact hs
      · split at h
        · injection h with h1
          rw [← h1]
          refine ⟨fun s' hs' => ?_, hs.2⟩
          obtain ⟨s, hsm, h1', h2'⟩ := globalLoop_syms fuel i1 st.symbols st.pending s' hs'
          exact symOk_of_eq h1' h2' (hs.1 s hsm)
        · split at h
          · injection h with h1; rw [← h1]; exact hs
          · split at h
            · cases hb : byteLoop toks fuel i1 st.data with
              | error e => rw [hb] at h; exact Except.noConfusion h
              | ok r =>
                rw [hb] at h
                obtain ⟨i2, data1⟩ := r
                dsimp only at h
                injection h with h1
                rw [← h1]
                obtain ⟨ext, hext⟩ := byteLoop_data fuel i1 st.data i2 data1 hb
                exact invAt_mono le_rfl (by simp [hext]) hs
            · split at h
              · cases hw : wordStep toks i1 st.data st.relocs with
                | error e => rw [hw] at h; exact Except.noConfusion h
                | ok r =>
                  rw [hw] at h
                  obtain ⟨i2, dr⟩ := r
                  dsimp only at h
                  injection h with h1
                  rw [← h1]
                  rcases wordStep_shape hw with ⟨n, hd, hr⟩ | ⟨bs, hb4, hd, hr⟩
                  · rw [hd, hr]
                    refine ⟨fun s hsm => symOk_mono le_rfl (by simp) (hs.1 s hsm),
                      fun r1 hrm => ?_⟩
                    rcases List.mem_append.mp hrm with hm | hm
                    · exact relOk_mono le_rfl (by simp) (hs.2 r1 hm)
                    · rcases List.mem_singleton.mp hm with rfl
                      constructor
                      · intro h1
                        exact absurd h1 (by simp)
                      · intro h2
                        simp
                  · rw [hd, hr]
                    exact invAt_mono le_rfl (by simp) hs
              · injection h with h1; rw [← h1]; exact hs

theorem parseLoop_inv {toks : List Token} :
    ∀ (fuel : Nat) (st st' : PSt), parseLoop toks fuel st = .ok st' → StInv st → StInv st' := by
  intro fuel
  induction fuel with
  | zero =>
    intro st st' h
    exact Except.noConfusion h
  | succ fuel ih =>
    intro st st' h hs
    unfold parseLoop at h
    dsimp only at h
    split at h
    · injection h with h1; rw [← h1]; exact hs
    · split at h
      · exact ih _ st' h hs
      · split at h
        · cases hd : defineSymbolM {st with i := st.i + 1} ((tokAt toks st.i).value.dropLast)
              st.current (if st.current == 1 then 8 * st.instrs.length else st.data.length) with
          | error e => rw [hd] at h; exact Except.noConfusion h
          | ok st1 =>
            rw [hd] at h
            dsimp only at h
            have hnew : ∀ b, SymOk st.instrs.length st.data.length
                ⟨(tokAt toks st.i).value.dropLast, st.current,
                  (if st.current == 1 then 8 * st.instrs.length else st.data.length), b⟩ := by
              intro b
              by_cases hc : st.current = 1
              · constructor
                · intro h1
                  rw [if_pos (by simp [hc])]
                  exact ⟨⟨st.instrs.length, rfl⟩, le_rfl⟩
                · intro h2
                  simp only at h2
                  rw [hc] at h2
                  exact absurd h2 (by simp)
              · constructor
                · intro h1
                  simp only at h1
                  exact absurd h1 hc
                · intro h2
                  rw [if_neg (by simp [hc])]
            have hst1 := defineSymbolM_inv hd hs hnew
            exact ih _ st' h hst1
        · split at h
          · cases hdir : handleDirectiveM toks (toks.length + 2) st with
            | error e => rw [hdir] at h; exact Except.noConfusion h
            | ok st1 =>
              rw [hdir] at h
              exact ih st1 st' h (handleDirectiveM_inv hdir hs)
          · split at h
            · cases hins : parseInstrM toks st with
              | error e => rw [hins] at h; exact Except.noConfusion h
              | ok st1 =>
                rw [hins] at h
                dsimp only at h
                have hst1 := parseInstrM_inv hins hs
                exact ih _ st' h hst1
            · exact ih _ st' h hs

theorem materializeGo_syms {nI nD : Nat} :
    ∀ (pend : List (List Char)) (syms : List Sym),
      (∀ s ∈ syms, SymOk nI nD s) → ∀ s ∈ materializeGo syms pend, SymOk nI nD s := by
  intro pend
  induction pend with
  | nil =>
    intro syms hsy s hsm
    exact hsy s hsm
  | cons n rest ih =>
    intro syms hsy s hsm
    unfold materializeGo at hsm
    split at hsm
    · exact ih syms hsy s hsm
    · refine ih _ ?_ s hsm
      intro s1 hs1
      rcases List.mem_append.mp hs1 with hm | hm
      · exact hsy s1 hm
      · rcases List.mem_singleton.mp hm with rfl
        exact ⟨fun h1 => absurd h1 (by simp), fun h2 => absurd h2 (by simp)⟩

theorem parseTop_inv {toks : List Token} {res : PRes} (h : parseTop toks = .ok res) :
    InvAt res.instrs.length res.data.length res.symbols res.relocs := by
  unfold parseTop at h
  cases hp : parseLoop toks (toks.length + 2) ⟨0, 1, [], [], [], [], []⟩ with
  | error e => rw [hp] at h; exact Except.noConfusion h
  | ok st =>
    rw [hp] at h
    injection h with h1
    have hs : StInv st := parseLoop_inv _ _ st hp (by constructor <;> intro x hx <;> cases hx)
    rw [← h1]
    exact ⟨materializeGo_syms st.pending st.symbols hs.1, hs.2⟩

theorem assembleIR_inv {src : String} {res : PRes} (h : assembleIR src = .ok res) :
    InvAt res.instrs.length res.data.length res.symbols res.relocs := by
  unfold assembleIR at h
  cases hm : mexpand src.toList with
  | error e => simp only [hm] at h; exact Except.noConfusion h
  | ok exp =>
    simp only [hm] at h
    cases hl : lexAll exp with
    | error e => simp only [hl] at h; exact Except.noConfusion h
    | ok toks =>
      simp only [hl] at h
      exact parseTop_inv h

theorem encodeText_length (instrs : List Instr) : (encodeText instrs).length = 8 * instrs.length := by
  induction instrs with
  | nil => rfl
  | cons ins rest ih =>
    unfold encodeText at ih ⊢
    rw [List.flatMap_cons, List.length_append, ih]
    simp [encodeInstr, le32i, VmBytes.le32]
    omega

end VmAsm

open VmBytes VmAsm

/-- C4 claim. -/
theorem claim_C4_text_reloc_shape :
    ∀ (src : String) (res : PRes), assembleIR src = .ok res →
      ∀ r ∈ res.relocs, r.sec = 1 →
        (∃ k, r.offset = 8 * k + 4) ∧ r.offset + 4 ≤ (encodeText res.instrs).length := by
  intro src res h r hr hsec
  have hinv := assembleIR_inv h
  have := (hinv.2 r hr).1 hsec
  rw [encodeText_length]
  exact this

theorem claim_C4_witness :
    (∃ k, (4 : Nat) = 8 * k + 4) ∧
      (4 : Nat) + 4 ≤ (encodeText [⟨10, 0, 0, 0, 0, some ['L'], 1⟩]).length :=
  claim_C4_text_reloc_shape "jmp L" ⟨[⟨10, 0, 0, 0, 0, some ['L'], 1⟩], [], [], [⟨1, 4, 0, ['L']⟩]⟩
    (by decide) ⟨1, 4, 0, ['L']⟩ (by decide) rfl

/-- C3 counterexample. -/
theorem claim_C3_counterexample :
    assembleIR "halt\nL:\n" =
      .ok ⟨[⟨15, 0, 0, 0, 0, none, 1⟩], [], [⟨['L'], 1, 8, false⟩], []⟩ ∧
    (encodeText [⟨15, 0, 0, 0, 0, none, 1⟩]).length = 8 ∧
    ¬ ((8 : Nat) < 8) := by
  decide

/-- C3 amended. -/
theorem claim_C3_symbol_bounds :
    ∀ (src : String) (res : PRes), assembleIR src = .ok res →
      ∀ s ∈ res.symbols,
        (s.sec = 1 → 8 ∣ s.value ∧ s.value ≤ (encodeText res.instrs).length) ∧
        (s.sec = 2 → s.value ≤ res.data.length) := by
  intro src res h s hsm
  have hinv := assembleIR_inv h
  have hso := hinv.1 s hsm
  rw [encodeText_length]
  exact hso

theorem claim_C3_witness :
    8 ∣ (8 : Nat) ∧ (8 : Nat) ≤ (encodeText [⟨15, 0, 0, 0, 0, none, 1⟩]).length :=
  (claim_C3_symbol_bounds "halt\nL:\n"
    ⟨[⟨15, 0, 0, 0, 0, none, 1⟩], [], [⟨['L'], 1, 8, false⟩], []⟩ (by decide)
    ⟨['L'], 1, 8, false⟩ (by decide)).1 rfl

/-- C5. -/
theorem claim_C5_smoke :
    assemble "ldi r1, 0x2A\nhalt\n" =
      .ok ([70, 79, 77, 86, 2, 0, 0, 0] ++
        le32 40 ++ le32 16 ++ le32 56 ++ le32 0 ++ le32 56 ++ le32 0 ++ le32 56 ++ le32 0 ++
        ([1, 1, 0, 0, 42, 0, 0, 0] ++ [15, 0, 0, 0, 0, 0, 0, 0])) ∧
    assembleIR "ldi r1, 0x2A\nhalt\n" =
      .ok ⟨[⟨1, 1, 0, 0, 42, none, 1⟩, ⟨15, 0, 0, 0, 0, none, 2⟩], [], [], []⟩ := by
  decide

/-- C6 counterexample. -/
theorem claim_C6_counterexample :
    mexpand ".macro M 0\nhalt\n.endm\n.macro M 0\nret\n.endm\nM".toList =
      .ok ['h', 'a', 'l', 't'] ∧
    (['h', 'a', 'l', 't'] : List Char) ≠ ['r', 'e', 't'] := by
  decide

/-- C6 amended. -/
theorem claim_C6_first_definition_wins :
    mexpand ".macro M 0\nhalt\n.endm\n.macro M 0\nret\n.endm\nM".toList =
      .ok ['h', 'a', 'l', 't'] ∧
    mexpand ".macro M 0\nret\n.endm\n.macro M 0\nhalt\n.endm\nM".toList =
      .ok ['r', 'e', 't'] := by
  decide
